import Mathlib

/-!
# BayesOpt, `mcmc.hpp`: the MCMC sampler accessors and the MCMC posterior ensemble

Shallow embedding of the inline member functions of `MCMCSampler` and
`MCMCModel` (file `include/mcmc.hpp`).

Conventions of the embedding.

* `size_t` values are natural numbers (no arithmetic is performed on them,
  so no wrap-around can occur).
* `double` values are rationals. `evaluateCriteria` takes the arithmetic over
  exact numbers; `evaluateCriteriaRounded` is the same body with every
  floating-point operation followed by a rounding, `roundDouble` being the
  rounding of binary64 (to nearest, ties to even).
* `boost::ptr_vector` and `std::vector` are lists. The subscripts `mCrit[0]`
  and `mGP[0]` of an empty collection have no result (`none`). The subscript
  of `getParticle` is the unchecked read of the sampler storage, see there.
* A C++ member function that may throw returns its outcome
  (`Except ε _`) together with the state it leaves behind.
* The classes `NonParametricProcess` and `Criteria` are declared in headers
  that are not part of the sources at hand; their member functions are taken
  as parameters (`SurrogateOps`, `CriteriaOps`). Surrogate fit and update and
  criterion evaluation may throw; the remaining criterion members are taken
  as returning normally.
-/

namespace bayesopt

/-! ## Data model -/

/-- Sampling algorithms, `typedef enum { SLICE_MCMC } McmcAlgorithms`. -/
inductive McmcAlgorithms where
  | SLICE_MCMC
  deriving DecidableEq, Repr

/-- A uBlas vector of doubles. -/
abbrev vectord := List ℚ

/-- A `std::vector` of `vectord`. -/
abbrev vecOfvec := List vectord

/-- Data members of `class MCMCSampler`. The wrapped objective `obj` and the
random engine `mtRandom` are kept abstract. -/
structure MCMCSampler (Obj Rng : Type) where
  obj : Obj
  mAlg : McmcAlgorithms
  mDims : Nat
  nBurnOut : Nat
  nSamples : Nat
  mStepOut : Bool
  mSigma : vectord
  mParticles : vecOfvec
  mtRandom : Rng

/-- Member functions of `NonParametricProcess` used by `MCMCModel`. Fitting
and updating may throw: each returns its outcome and the state left behind. -/
structure SurrogateOps (G Q D ε : Type) where
  fitSurrogateModel : G → Except ε Unit × G
  updateSurrogateModel : G → Except ε Unit × G
  prediction : G → Q → D

/-- Member functions of `Criteria` used by `MCMCModel`. `evaluate` may throw.
`rotateCriteria` returns its boolean result and the rotated criterion. -/
structure CriteriaOps (C Q R L ε : Type) where
  evaluate : C → Q → Except ε ℚ
  requireComparison : C → Bool
  initialCriteria : C → C
  rotateCriteria : C → Bool × C
  pushResult : C → R → C
  getBestCriteria : C → L × R

/-- Data members of `class MCMCModel`: the particle count, the surrogate
collection `mGP`, the criterion collection `mCrit` and the owned sampler. -/
structure MCMCModel (G C S : Type) where
  nParticles : Nat
  mGP : List G
  mCrit : List C
  kSampler : S

/-- Data-model invariant of the ensemble: both member collections have
length `nParticles`. -/
def MCMCModel.WellFormed {G C S : Type} (m : MCMCModel G C S) : Prop :=
  m.mGP.length = m.nParticles ∧ m.mCrit.length = m.nParticles

/-! ## `MCMCSampler` inline members -/

/-- `MCMCSampler::setAlgorithm`: `mAlg = newAlg`. -/
def MCMCSampler.setAlgorithm {Obj Rng : Type} (s : MCMCSampler Obj Rng)
    (newAlg : McmcAlgorithms) : MCMCSampler Obj Rng :=
  { s with mAlg := newAlg }

/-- `MCMCSampler::setNParticles`: `nSamples = nParticles`. -/
def MCMCSampler.setNParticles {Obj Rng : Type} (s : MCMCSampler Obj Rng)
    (nParticles : Nat) : MCMCSampler Obj Rng :=
  { s with nSamples := nParticles }

/-- `MCMCSampler::setNBurnOut`: `nBurnOut = nParticles`. -/
def MCMCSampler.setNBurnOut {Obj Rng : Type} (s : MCMCSampler Obj Rng)
    (nParticles : Nat) : MCMCSampler Obj Rng :=
  { s with nBurnOut := nParticles }

/-- `MCMCSampler::getParticle`: `return mParticles[i]`, the `operator[]` of
`std::vector`, which performs no range check: the call reads the element at
offset `i` of the storage, whether or not `i < mParticles.size()`. `behind`
lists what the storage holds behind the last particle, as far as it can be
read as vectors; a read further out traps (`none`). -/
def MCMCSampler.getParticle {Obj Rng : Type} (s : MCMCSampler Obj Rng)
    (behind : vecOfvec) (i : Nat) : Option vectord :=
  (s.mParticles ++ behind)[i]?

/-! ## `MCMCModel` inline members -/

/-- The loop `for (it = mGP.begin(); it != mGP.end(); ++it) it->step();`.
An exception thrown by a member leaves the loop at once. -/
def forEachGP {G ε : Type} (step : G → Except ε Unit × G) :
    List G → Except ε Unit × List G
  | [] => (Except.ok (), [])
  | g :: gs =>
    match step g with
    | (Except.error e, g1) => (Except.error e, g1 :: gs)
    | (Except.ok _, g1) =>
      let r := forEachGP step gs
      (r.1, g1 :: r.2)

/-- `MCMCModel::fitSurrogateModel`. -/
def MCMCModel.fitSurrogateModel {G C S Q D ε : Type} (gp : SurrogateOps G Q D ε)
    (m : MCMCModel G C S) : Except ε Unit × MCMCModel G C S :=
  let r := forEachGP gp.fitSurrogateModel m.mGP
  (r.1, { m with mGP := r.2 })

/-- `MCMCModel::updateSurrogateModel`. -/
def MCMCModel.updateSurrogateModel {G C S Q D ε : Type} (gp : SurrogateOps G Q D ε)
    (m : MCMCModel G C S) : Except ε Unit × MCMCModel G C S :=
  let r := forEachGP gp.updateSurrogateModel m.mGP
  (r.1, { m with mGP := r.2 })

/-- The loop of `evaluateCriteria`: `sum += it->evaluate(query)` over the
criterion collection, starting from the accumulator `sum`. -/
def sumCriteria {C Q R L ε : Type} (cr : CriteriaOps C Q R L ε) (query : Q) :
    List C → ℚ → Except ε ℚ
  | [], sum => Except.ok sum
  | c :: cs, sum =>
    match cr.evaluate c query with
    | Except.error e => Except.error e
    | Except.ok v => sumCriteria cr query cs (sum + v)

/-- `MCMCModel::evaluateCriteria`: the accumulated sum divided by
`static_cast<double>(nParticles)`. -/
def MCMCModel.evaluateCriteria {G C S Q R L ε : Type} (cr : CriteriaOps C Q R L ε)
    (m : MCMCModel G C S) (query : Q) : Except ε ℚ :=
  match sumCriteria cr query m.mCrit 0 with
  | Except.error e => Except.error e
  | Except.ok sum => Except.ok (sum / (m.nParticles : ℚ))

/-! ### The same body in rounded arithmetic -/

/-- Number of halvings that bring `n` below 2, at most `fuel` of them. -/
def halvings : Nat → Nat → Nat
  | 0, _ => 0
  | fuel + 1, n => if n < 2 then 0 else halvings fuel (n / 2) + 1

/-- Integer part of the binary logarithm of `n ≥ 1` (and `0` for `n = 0`). -/
def floorLog2 (n : Nat) : Nat := halvings n n

/-- Binary exponent of a nonzero rational `x`: the `e` with
`2 ^ e ≤ |x| < 2 ^ (e + 1)`. -/
def binadeExp (x : ℚ) : ℤ :=
  let a := x.num.natAbs
  let b := x.den
  let e0 : ℤ := (floorLog2 a : ℤ) - (floorLog2 b : ℤ)
  if a * 2 ^ floorLog2 b < b * 2 ^ floorLog2 a then e0 - 1 else e0

/-- The integer nearest to `n / d`, a tie going to the even one. -/
def roundHalfEven (n d : Nat) : Nat :=
  let q := n / d
  let r := n % d
  if 2 * r < d then q
  else if d < 2 * r then q + 1
  else if q % 2 = 0 then q else q + 1

/-- Rounding of a real result to `double` (IEEE 754 binary64, round to
nearest, ties to even): 53 significant bits in the normal range, multiples
of `2 ^ (-1074)` below `2 ^ (-1022)`. Results of magnitude `2 ^ 1024` or more,
which a `double` turns into an infinity, are outside this embedding. -/
def roundDouble (x : ℚ) : ℚ :=
  if x = 0 then 0 else
  let e : ℤ := max (binadeExp x) (-1022)
  let s : ℤ := 52 - e
  let a := x.num.natAbs
  let b := x.den
  let n : Nat := if 0 ≤ s then roundHalfEven (a * 2 ^ s.toNat) b
                 else roundHalfEven a (b * 2 ^ (-s).toNat)
  let mag : ℚ := if 0 ≤ s then (n : ℚ) / (2 ^ s.toNat : ℕ)
                 else (n : ℚ) * (2 ^ (-s).toNat : ℕ)
  if x < 0 then -mag else mag

/-- The loop of `evaluateCriteria` with the result of every floating-point
operation rounded by `fl`: `sum += it->evaluate(query)` stores
`fl (sum + v)`. -/
def sumCriteriaRounded {C Q R L ε : Type} (fl : ℚ → ℚ) (cr : CriteriaOps C Q R L ε)
    (query : Q) : List C → ℚ → Except ε ℚ
  | [], sum => Except.ok sum
  | c :: cs, sum =>
    match cr.evaluate c query with
    | Except.error e => Except.error e
    | Except.ok v => sumCriteriaRounded fl cr query cs (fl (sum + v))

/-- `MCMCModel::evaluateCriteria` with the result of every floating-point
operation rounded by `fl`: the additions of the loop, the conversion
`static_cast<double>(nParticles)` and the final division. With `fl = id`
this is `MCMCModel.evaluateCriteria`; with `fl = roundDouble` it is the
`double` arithmetic of the code. -/
def MCMCModel.evaluateCriteriaRounded {G C S Q R L ε : Type} (fl : ℚ → ℚ)
    (cr : CriteriaOps C Q R L ε) (m : MCMCModel G C S) (query : Q) : Except ε ℚ :=
  match sumCriteriaRounded fl cr query m.mCrit 0 with
  | Except.error e => Except.error e
  | Except.ok sum => Except.ok (fl (sum / fl (m.nParticles : ℚ)))

/-- `MCMCModel::criteriaRequiresComparison`:
`return mCrit[0].requireComparison()`. Returns the flag and the ensemble
after the call; `none` when `mCrit[0]` does not exist. -/
def MCMCModel.criteriaRequiresComparison {G C S Q R L ε : Type}
    (cr : CriteriaOps C Q R L ε) (m : MCMCModel G C S) :
    Option (Bool × MCMCModel G C S) :=
  match m.mCrit[0]? with
  | none => none
  | some c => some (cr.requireComparison c, m)

/-- `MCMCModel::setFirstCriterium`: `it->initialCriteria()` on every member
of `mCrit`. -/
def MCMCModel.setFirstCriterium {G C S Q R L ε : Type} (cr : CriteriaOps C Q R L ε)
    (m : MCMCModel G C S) : MCMCModel G C S :=
  { m with mCrit := m.mCrit.map cr.initialCriteria }

/-- The loop of `setNextCriterium`: `rotated = it->rotateCriteria()` over the
criterion collection. `rotated` is the value held by the local variable
(`none` while it is uninitialised). -/
def rotateAll {C Q R L ε : Type} (cr : CriteriaOps C Q R L ε) :
    List C → Option Bool → Option Bool × List C
  | [], rotated => (rotated, [])
  | c :: cs, _ =>
    let r := rotateAll cr cs (some (cr.rotateCriteria c).1)
    (r.1, (cr.rotateCriteria c).2 :: r.2)

/-- `MCMCModel::setNextCriterium`: `mCrit[0].pushResult(prevResult)`, then
the rotation loop, then `return rotated`. `none` when `mCrit[0]` does not
exist (the local `rotated` would also be returned uninitialised). -/
def MCMCModel.setNextCriterium {G C S Q R L ε : Type} (cr : CriteriaOps C Q R L ε)
    (m : MCMCModel G C S) (prevResult : R) : Option (Bool × MCMCModel G C S) :=
  match m.mCrit with
  | [] => none
  | c0 :: rest =>
    let r := rotateAll cr (cr.pushResult c0 prevResult :: rest) none
    match r.1 with
    | none => none
    | some rotated => some (rotated, { m with mCrit := r.2 })

/-- `MCMCModel::getBestCriteria`: `return mCrit[0].getBestCriteria(best)`. -/
def MCMCModel.getBestCriteria {G C S Q R L ε : Type} (cr : CriteriaOps C Q R L ε)
    (m : MCMCModel G C S) : Option (L × R) :=
  match m.mCrit[0]? with
  | none => none
  | some c => some (cr.getBestCriteria c)

/-- `MCMCModel::getPrediction`: `return mGP[0].prediction(query)`. -/
def MCMCModel.getPrediction {G C S Q D ε : Type} (gp : SurrogateOps G Q D ε)
    (m : MCMCModel G C S) (query : Q) : Option D :=
  match m.mGP[0]? with
  | none => none
  | some g => some (gp.prediction g query)

/-! ## Successive criterion calls and rotation behaviour -/

/-- Successive calls `setNextCriterium(r)`, one for every previous result of
the list, on the ensemble left by the call before; the returned flags are
collected in call order. -/
def MCMCModel.setNextCriteriumSeq {G C S Q R L ε : Type} (cr : CriteriaOps C Q R L ε)
    (m : MCMCModel G C S) : List R → Option (List Bool × MCMCModel G C S)
  | [] => some ([], m)
  | r :: rs =>
    match m.setNextCriterium cr r with
    | none => none
    | some (rotated, m1) =>
      match MCMCModel.setNextCriteriumSeq cr m1 rs with
      | none => none
      | some (flags, m2) => some (rotated :: flags, m2)

/-- A call of one of the two criterion-selection members. -/
inductive CriteriumCall (R : Type) where
  | first : CriteriumCall R
  | next (prevResult : R) : CriteriumCall R

/-- A sequence of `setFirstCriterium` / `setNextCriterium` calls, executed
from left to right. -/
def MCMCModel.runCalls {G C S Q R L ε : Type} (cr : CriteriaOps C Q R L ε)
    (m : MCMCModel G C S) : List (CriteriumCall R) → Option (MCMCModel G C S)
  | [] => some m
  | CriteriumCall.first :: calls =>
    MCMCModel.runCalls cr (m.setFirstCriterium cr) calls
  | CriteriumCall.next prevResult :: calls =>
    match m.setNextCriterium cr prevResult with
    | none => none
    | some (_, m1) => MCMCModel.runCalls cr m1 calls

/-- Modelled from the spec: the rotation behaviour of the `Criteria` members
(header `criteria_functors.hpp`, not among the sources). The criteria cycle
through `k` candidates, `pos c` being the candidate at which `c` stands:
`initialCriteria` selects the first candidate, `rotateCriteria` moves to the
next candidate cyclically and returns whether it wrapped back to the first
one, and `pushResult` does not move the criterion. -/
structure CyclesThrough {C Q R L ε : Type} (cr : CriteriaOps C Q R L ε) (k : Nat)
    (pos : C → Nat) : Prop where
  initial_pos : ∀ c, pos (cr.initialCriteria c) = 0
  rotate_pos : ∀ c, pos (cr.rotateCriteria c).2 = (pos c + 1) % k
  rotate_wrapped : ∀ c, (cr.rotateCriteria c).1 = decide ((pos c + 1) % k = 0)
  push_pos : ∀ c r, pos (cr.pushResult c r) = pos c

/-- All members of the criterion collection stand at the same candidate. -/
def MCMCModel.Synchronized {G C S : Type} (pos : C → Nat) (m : MCMCModel G C S) : Prop :=
  ∀ c ∈ m.mCrit, ∀ d ∈ m.mCrit, pos c = pos d

/-! ## Concrete members used to evaluate the definitions -/

/-- A surrogate stand-in: it counts the completed fits and updates and throws
`"singular"` when its covariance matrix is flagged singular. -/
structure CountingGP where
  fits : Nat
  updates : Nat
  singular : Bool
  deriving DecidableEq, Repr

/-- Member functions of `CountingGP`. -/
def countingOps : SurrogateOps CountingGP ℚ ℚ String where
  fitSurrogateModel g :=
    if g.singular then (Except.error "singular", g)
    else (Except.ok (), { g with fits := g.fits + 1 })
  updateSurrogateModel g :=
    if g.singular then (Except.error "singular", g)
    else (Except.ok (), { g with updates := g.updates + 1 })
  prediction g query := query * (g.fits : ℚ)

/-- Modelled from the spec: the `Criteria` class (header
`criteria_functors.hpp`, not among the sources) as a combined criterion that
cycles through a fixed number of candidates. `mIndex` is the active
candidate, `mResults` the feedback history filled by `pushResult`, `gain` the
score factor of `evaluate`, `comparison` the configured comparison flag and
`broken` makes `evaluate` throw. -/
structure RotatingCriteria where
  mIndex : Nat
  mResults : List ℚ
  gain : ℚ
  comparison : Bool
  broken : Bool
  deriving DecidableEq, Repr

/-- Modelled from the spec: the member functions of a `Criteria` with `k`
candidates. `initialCriteria` selects the first candidate; `rotateCriteria`
moves to the next candidate and returns whether the rotation wrapped back to
the first one; `pushResult` appends to the feedback history. -/
def rotatingOps (k : Nat) : CriteriaOps RotatingCriteria ℚ ℚ String String where
  evaluate c query :=
    if c.broken then Except.error "criterion" else Except.ok (c.gain * query)
  requireComparison c := c.comparison
  initialCriteria c := { c with mIndex := 0 }
  rotateCriteria c :=
    (decide ((c.mIndex + 1) % k = 0), { c with mIndex := (c.mIndex + 1) % k })
  pushResult c prevResult := { c with mResults := c.mResults ++ [prevResult] }
  getBestCriteria c := ("candidate", c.mResults.getLastD 0)

/-- A healthy surrogate with no fit done. -/
def gpGood : CountingGP := { fits := 0, updates := 0, singular := false }

/-- A surrogate whose fit and update throw. -/
def gpBad : CountingGP := { fits := 0, updates := 0, singular := true }

/-- A criterion at candidate `i` with score factor `a`. -/
def critAt (i : Nat) (a : ℚ) : RotatingCriteria :=
  { mIndex := i, mResults := [], gain := a, comparison := true, broken := false }

/-- A criterion whose evaluation throws. -/
def critBroken : RotatingCriteria :=
  { mIndex := 0, mResults := [], gain := 1, comparison := false, broken := true }

/-- An ensemble of three healthy members. -/
def ens3 : MCMCModel CountingGP RotatingCriteria Unit :=
  { nParticles := 3, mGP := [gpGood, gpGood, gpGood],
    mCrit := [critAt 0 1, critAt 0 2, critAt 0 6], kSampler := () }

/-- An ensemble whose member 0 fails. -/
def ensFail0 : MCMCModel CountingGP RotatingCriteria Unit :=
  { nParticles := 2, mGP := [gpBad, gpGood],
    mCrit := [critBroken, critAt 0 1], kSampler := () }

/-- An ensemble whose member 1 fails. -/
def ensFail1 : MCMCModel CountingGP RotatingCriteria Unit :=
  { nParticles := 2, mGP := [gpGood, gpBad],
    mCrit := [critAt 0 1, critBroken], kSampler := () }

/-- An ensemble whose middle member fails, between two healthy ones. -/
def ensFailMid : MCMCModel CountingGP RotatingCriteria Unit :=
  { nParticles := 3, mGP := [gpGood, gpBad, gpGood],
    mCrit := [critAt 0 1, critBroken, critAt 0 1], kSampler := () }

/-- An ensemble of three identical criterion instances. -/
def ensSame : MCMCModel CountingGP RotatingCriteria Unit :=
  { nParticles := 3, mGP := [gpGood, gpGood, gpGood],
    mCrit := [critAt 1 (1/10), critAt 1 (1/10), critAt 1 (1/10)], kSampler := () }

/-- The `double` nearest to `0.1`. -/
def tenthDouble : ℚ := 3602879701896397 / 36028797018963968

/-- An ensemble of three identical criterion instances whose value at the
query `1` is the `double` nearest to `0.1`. -/
def ensTenths : MCMCModel CountingGP RotatingCriteria Unit :=
  { nParticles := 3, mGP := [gpGood, gpGood, gpGood],
    mCrit := [critAt 0 tenthDouble, critAt 0 tenthDouble, critAt 0 tenthDouble],
    kSampler := () }

/-- A sampler holding three one-dimensional particles. -/
def sampler3 : MCMCSampler Unit Unit :=
  { obj := (), mAlg := McmcAlgorithms.SLICE_MCMC, mDims := 1, nBurnOut := 100,
    nSamples := 3, mStepOut := true, mSigma := [1],
    mParticles := [[1/2], [-1/4], [3]], mtRandom := () }

/-- The candidate at which a `RotatingCriteria` with `k` candidates stands. -/
def rotatingPos (k : Nat) (c : RotatingCriteria) : Nat := c.mIndex % k

/-! ## Lemmas on the member loops -/

theorem forEachGP_all_ok {G ε : Type} (step : G → Except ε Unit × G) (gs : List G)
    (h : ∀ g ∈ gs, (step g).1 = Except.ok ()) :
    forEachGP step gs = (Except.ok (), gs.map (fun g => (step g).2)) := by
  induction gs with
  | nil => rfl
  | cons g gs ih =>
    have hg : (step g).1 = Except.ok () := h g (List.mem_cons_self g gs)
    have ih1 := ih (fun x hx => h x (List.mem_cons_of_mem g hx))
    rcases hs : step g with ⟨o, g1⟩
    rw [hs] at hg
    simp only at hg
    subst hg
    simp [forEachGP, hs, ih1]

theorem forEachGP_first_error {G ε : Type} (step : G → Except ε Unit × G)
    (pre : List G) (g : G) (post : List G) (e : ε)
    (hpre : ∀ p ∈ pre, (step p).1 = Except.ok ())
    (hg : (step g).1 = Except.error e) :
    forEachGP step (pre ++ g :: post)
      = (Except.error e, pre.map (fun p => (step p).2) ++ (step g).2 :: post) := by
  induction pre with
  | nil =>
    rcases hs : step g with ⟨o, g1⟩
    rw [hs] at hg
    simp only at hg
    subst hg
    simp [forEachGP, hs]
  | cons p pre ih =>
    have hp : (step p).1 = Except.ok () := hpre p (List.mem_cons_self p pre)
    have ih1 := ih (fun x hx => hpre x (List.mem_cons_of_mem p hx))
    rcases hs : step p with ⟨o, p1⟩
    rw [hs] at hp
    simp only at hp
    subst hp
    simp [forEachGP, hs, ih1]

theorem forEachGP_error_inv {G ε : Type} (step : G → Except ε Unit × G)
    (gs : List G) (e : ε) (h : (forEachGP step gs).1 = Except.error e) :
    ∃ pre g post, gs = pre ++ g :: post ∧ (∀ p ∈ pre, (step p).1 = Except.ok ())
      ∧ (step g).1 = Except.error e := by
  induction gs with
  | nil => simp [forEachGP] at h
  | cons g gs ih =>
    rcases hs : step g with ⟨o, g1⟩
    cases o with
    | error e1 =>
      simp [forEachGP, hs] at h
      exact ⟨[], g, gs, rfl, by simp, by rw [hs, h]⟩
    | ok u =>
      simp [forEachGP, hs] at h
      obtain ⟨pre, g2, post, hsplit, hpre, hg2⟩ := ih h
      refine ⟨g :: pre, g2, post, by rw [hsplit]; rfl, ?_, hg2⟩
      intro p hp
      rcases List.mem_cons.mp hp with rfl | hp1
      · rw [hs]
      · exact hpre p hp1

theorem sumCriteria_all_ok {C Q R L ε : Type} (cr : CriteriaOps C Q R L ε) (query : Q)
    (cs : List C) (vals : List ℚ) (acc : ℚ)
    (h : cs.map (fun c => cr.evaluate c query) = vals.map Except.ok) :
    sumCriteria cr query cs acc = Except.ok (acc + vals.sum) := by
  induction cs generalizing vals acc with
  | nil =>
    cases vals with
    | nil => simp [sumCriteria]
    | cons v vs => simp at h
  | cons c cs ih =>
    cases vals with
    | nil => simp at h
    | cons v vs =>
      simp only [List.map_cons, List.cons.injEq] at h
      simp [sumCriteria, h.1, ih vs (acc + v) h.2, add_assoc]

theorem sumCriteria_first_error {C Q R L ε : Type} (cr : CriteriaOps C Q R L ε)
    (query : Q) (pre : List C) (c : C) (post : List C) (e : ε) (acc : ℚ)
    (hpre : ∀ p ∈ pre, ∃ v, cr.evaluate p query = Except.ok v)
    (hc : cr.evaluate c query = Except.error e) :
    sumCriteria cr query (pre ++ c :: post) acc = Except.error e := by
  induction pre generalizing acc with
  | nil => simp [sumCriteria, hc]
  | cons p pre ih =>
    obtain ⟨v, hv⟩ := hpre p (List.mem_cons_self p pre)
    have ih1 := ih (acc + v) (fun x hx => hpre x (List.mem_cons_of_mem p hx))
    simp [sumCriteria, hv, ih1]

theorem sumCriteria_error_inv {C Q R L ε : Type} (cr : CriteriaOps C Q R L ε)
    (query : Q) (cs : List C) (acc : ℚ) (e : ε)
    (h : sumCriteria cr query cs acc = Except.error e) :
    ∃ pre c post, cs = pre ++ c :: post
      ∧ (∀ p ∈ pre, ∃ v, cr.evaluate p query = Except.ok v)
      ∧ cr.evaluate c query = Except.error e := by
  induction cs generalizing acc with
  | nil => simp [sumCriteria] at h
  | cons c cs ih =>
    cases hc : cr.evaluate c query with
    | error e1 =>
      simp [sumCriteria, hc] at h
      exact ⟨[], c, cs, rfl, by simp, by rw [hc, h]⟩
    | ok v =>
      simp [sumCriteria, hc] at h
      obtain ⟨pre, c2, post, hsplit, hpre, hc2⟩ := ih (acc + v) h
      refine ⟨c :: pre, c2, post, by rw [hsplit]; rfl, ?_, hc2⟩
      intro p hp
      rcases List.mem_cons.mp hp with rfl | hp1
      · exact ⟨v, hc⟩
      · exact hpre p hp1

theorem sumCriteriaRounded_id {C Q R L ε : Type} (cr : CriteriaOps C Q R L ε)
    (query : Q) (cs : List C) (acc : ℚ) :
    sumCriteriaRounded id cr query cs acc = sumCriteria cr query cs acc := by
  induction cs generalizing acc with
  | nil => rfl
  | cons c cs ih =>
    cases hc : cr.evaluate c query with
    | error e => simp [sumCriteriaRounded, sumCriteria, hc]
    | ok v => simp [sumCriteriaRounded, sumCriteria, hc, ih]

theorem evaluateCriteriaRounded_id {G C S Q R L ε : Type} (cr : CriteriaOps C Q R L ε)
    (m : MCMCModel G C S) (query : Q) :
    m.evaluateCriteriaRounded id cr query = m.evaluateCriteria cr query := by
  simp [MCMCModel.evaluateCriteriaRounded, MCMCModel.evaluateCriteria,
    sumCriteriaRounded_id]

theorem rotateAll_snd {C Q R L ε : Type} (cr : CriteriaOps C Q R L ε) (cs : List C)
    (r : Option Bool) :
    (rotateAll cr cs r).2 = cs.map (fun c => (cr.rotateCriteria c).2) := by
  induction cs generalizing r with
  | nil => rfl
  | cons c cs ih => simp [rotateAll, ih]

theorem rotateAll_fst {C Q R L ε : Type} (cr : CriteriaOps C Q R L ε) (cs : List C)
    (r : Option Bool) (h : cs ≠ []) :
    (rotateAll cr cs r).1 = some (cr.rotateCriteria (cs.getLast h)).1 := by
  induction cs generalizing r with
  | nil => exact absurd rfl h
  | cons c cs ih =>
    cases cs with
    | nil => simp [rotateAll]
    | cons d ds =>
      have hd : d :: ds ≠ [] := List.cons_ne_nil d ds
      have ih1 := ih (some (cr.rotateCriteria c).1) hd
      rw [List.getLast_cons hd]
      simpa [rotateAll] using ih1

theorem setNextCriterium_cons {G C S Q R L ε : Type} (cr : CriteriaOps C Q R L ε)
    (m : MCMCModel G C S) (prevResult : R) (c0 : C) (rest : List C)
    (h : m.mCrit = c0 :: rest) :
    m.setNextCriterium cr prevResult
      = some ((cr.rotateCriteria
                ((cr.pushResult c0 prevResult :: rest).getLast
                  (List.cons_ne_nil _ _))).1,
              { m with mCrit := (cr.rotateCriteria (cr.pushResult c0 prevResult)).2
                                  :: rest.map (fun c => (cr.rotateCriteria c).2) }) := by
  have h1 := rotateAll_fst cr (cr.pushResult c0 prevResult :: rest) none
    (List.cons_ne_nil _ _)
  have h2 := rotateAll_snd cr (cr.pushResult c0 prevResult :: rest) none
  unfold MCMCModel.setNextCriterium
  rw [h]
  simp only [h1, h2, List.map_cons]

theorem mCrit_cons_of_wellFormed {G C S : Type} (m : MCMCModel G C S)
    (hw : m.WellFormed) (hn : 1 ≤ m.nParticles) :
    ∃ c0 rest, m.mCrit = c0 :: rest := by
  cases hc : m.mCrit with
  | nil =>
    have := hw.2
    rw [hc] at this
    simp at this
    omega
  | cons c0 rest => exact ⟨c0, rest, rfl⟩

theorem rotatingOps_cycles (k : Nat) :
    CyclesThrough (rotatingOps k) k (rotatingPos k) where
  initial_pos := by
    intro c
    simp [rotatingOps, rotatingPos]
  rotate_pos := by
    intro c
    simp [rotatingOps, rotatingPos]
  rotate_wrapped := by
    intro c
    simp [rotatingOps, rotatingPos]
  push_pos := by
    intro c r
    simp [rotatingOps, rotatingPos]

/-- One call of `setNextCriterium` on a nonempty ensemble whose members all
stand at candidate `p`. -/
theorem setNextCriterium_allAt {G C S Q R L ε : Type} (cr : CriteriaOps C Q R L ε)
    (k : Nat) (pos : C → Nat) (hc : CyclesThrough cr k pos)
    (m : MCMCModel G C S) (prevResult : R) (p : Nat)
    (hne : m.mCrit ≠ []) (hp : ∀ c ∈ m.mCrit, pos c = p) :
    ∃ m1, m.setNextCriterium cr prevResult = some (decide ((p + 1) % k = 0), m1)
      ∧ m1.mCrit.length = m.mCrit.length
      ∧ (∀ c ∈ m1.mCrit, pos c = (p + 1) % k)
      ∧ m1.mGP = m.mGP ∧ m1.nParticles = m.nParticles ∧ m1.kSampler = m.kSampler := by
  cases hm : m.mCrit with
  | nil => exact absurd hm hne
  | cons c0 rest =>
    rw [hm] at hp
    have hpush : ∀ c ∈ cr.pushResult c0 prevResult :: rest, pos c = p := by
      intro c hcm
      rcases List.mem_cons.mp hcm with rfl | hr
      · rw [hc.push_pos]
        exact hp c0 (List.mem_cons_self c0 rest)
      · exact hp c (List.mem_cons_of_mem c0 hr)
    have hlast := hpush _ (List.getLast_mem (List.cons_ne_nil
      (cr.pushResult c0 prevResult) rest))
    refine ⟨{ m with mCrit := (cr.rotateCriteria (cr.pushResult c0 prevResult)).2
                                :: rest.map (fun c => (cr.rotateCriteria c).2) },
      ?_, ?_, ?_, rfl, rfl, rfl⟩
    · rw [setNextCriterium_cons cr m prevResult c0 rest hm, hc.rotate_wrapped, hlast]
    · simp
    · intro c hcm
      simp only [List.mem_cons, List.mem_map] at hcm
      rcases hcm with rfl | ⟨d, hd, rfl⟩
      · rw [hc.rotate_pos, hpush _ (List.mem_cons_self _ rest)]
      · rw [hc.rotate_pos, hp d (List.mem_cons_of_mem c0 hd)]

/-- Successive calls of `setNextCriterium` from a nonempty ensemble whose
members all stand at candidate `p`. -/
theorem setNextCriteriumSeq_allAt {G C S Q R L ε : Type} (cr : CriteriaOps C Q R L ε)
    (k : Nat) (pos : C → Nat) (hc : CyclesThrough cr k pos) (rs : List R)
    (m : MCMCModel G C S) (p : Nat)
    (hne : m.mCrit ≠ []) (hp : ∀ c ∈ m.mCrit, pos c = p) :
    ∃ m1, m.setNextCriteriumSeq cr rs
      = some ((List.range rs.length).map (fun j => decide ((p + j + 1) % k = 0)), m1) := by
  induction rs generalizing m p with
  | nil => exact ⟨m, rfl⟩
  | cons r rs ih =>
    obtain ⟨m1, h1, hlen, hp1, -, -, -⟩ :=
      setNextCriterium_allAt cr k pos hc m r p hne hp
    have hne1 : m1.mCrit ≠ [] := by
      intro h0
      rw [h0] at hlen
      exact hne (List.length_eq_zero.mp hlen.symm)
    obtain ⟨m2, h2⟩ := ih m1 ((p + 1) % k) hne1 hp1
    have key : (List.range rs.length).map (fun j => decide (((p + 1) % k + j + 1) % k = 0))
        = (List.range rs.length).map
            ((fun j => decide ((p + j + 1) % k = 0)) ∘ Nat.succ) := by
      apply List.map_congr_left
      intro j _
      have e1 : ((p + 1) % k + j + 1) % k = (p + (j + 1) + 1) % k := by
        rw [Nat.add_assoc ((p + 1) % k) j 1, Nat.mod_add_mod]
        congr 1
        omega
      simp only [Function.comp, Nat.succ_eq_add_one, e1]
    refine ⟨m2, ?_⟩
    simp only [MCMCModel.setNextCriteriumSeq, h1, h2, List.length_cons,
      List.range_succ_eq_map, List.map_cons, List.map_map, key, Nat.add_zero]

theorem synchronized_of_allAt {G C S : Type} (pos : C → Nat) (m : MCMCModel G C S)
    (p : Nat) (hp : ∀ c ∈ m.mCrit, pos c = p) : m.Synchronized pos := by
  intro c hc d hd
  rw [hp c hc, hp d hd]

theorem setFirstCriterium_allAt {G C S Q R L ε : Type} (cr : CriteriaOps C Q R L ε)
    (k : Nat) (pos : C → Nat) (hc : CyclesThrough cr k pos) (m : MCMCModel G C S) :
    ∀ c ∈ (m.setFirstCriterium cr).mCrit, pos c = 0 := by
  intro c hcm
  simp only [MCMCModel.setFirstCriterium, List.mem_map] at hcm
  obtain ⟨d, -, rfl⟩ := hcm
  exact hc.initial_pos d

/-- Any sequence of criterion calls keeps a nonempty synchronized ensemble
synchronized and of the same size. -/
theorem runCalls_synchronized {G C S Q R L ε : Type} (cr : CriteriaOps C Q R L ε)
    (k : Nat) (pos : C → Nat) (hc : CyclesThrough cr k pos)
    (calls : List (CriteriumCall R)) (m : MCMCModel G C S)
    (hne : m.mCrit ≠ []) (hs : m.Synchronized pos) :
    ∃ m1, m.runCalls cr calls = some m1 ∧ m1.Synchronized pos
      ∧ m1.mCrit.length = m.mCrit.length ∧ m1.mGP = m.mGP
      ∧ m1.nParticles = m.nParticles := by
  induction calls generalizing m with
  | nil => exact ⟨m, rfl, hs, rfl, rfl, rfl⟩
  | cons call calls ih =>
    cases call with
    | first =>
      have hne1 : (m.setFirstCriterium cr).mCrit ≠ [] := by
        simpa [MCMCModel.setFirstCriterium] using hne
      have hs1 := synchronized_of_allAt pos (m.setFirstCriterium cr) 0
        (setFirstCriterium_allAt cr k pos hc m)
      obtain ⟨m1, h1, hsync, hlen, hgp, hnp⟩ := ih (m.setFirstCriterium cr) hne1 hs1
      refine ⟨m1, ?_, hsync, ?_, ?_, ?_⟩
      · simpa [MCMCModel.runCalls] using h1
      · simpa [MCMCModel.setFirstCriterium] using hlen
      · simpa [MCMCModel.setFirstCriterium] using hgp
      · simpa [MCMCModel.setFirstCriterium] using hnp
    | next prevResult =>
      obtain ⟨c0, hc0⟩ := List.exists_mem_of_ne_nil m.mCrit hne
      have hp : ∀ c ∈ m.mCrit, pos c = pos c0 := fun c hcm => hs c hcm c0 hc0
      obtain ⟨m1, h1, hlen1, hp1, hgp1, hnp1, -⟩ :=
        setNextCriterium_allAt cr k pos hc m prevResult (pos c0) hne hp
      have hne1 : m1.mCrit ≠ [] := by
        intro h0
        rw [h0] at hlen1
        exact hne (List.length_eq_zero.mp hlen1.symm)
      have hs1 := synchronized_of_allAt pos m1 _ hp1
      obtain ⟨m2, h2, hsync, hlen, hgp, hnp⟩ := ih m1 hne1 hs1
      refine ⟨m2, ?_, hsync, hlen.trans hlen1, hgp.trans hgp1, hnp.trans hnp1⟩
      simp only [MCMCModel.runCalls, h1, h2]

/-! ## Averaged criterion value -/

/-- C1. For an ensemble with `nParticles ≥ 1` whose members' criteria all
return a value at `query` (the values `vals`, in index order),
`evaluateCriteria(query)` returns the sum of these values divided by
`nParticles`, over exact rationals. -/
theorem evaluateCriteria_eq_sum_div {G C S Q R L ε : Type} (cr : CriteriaOps C Q R L ε)
    (m : MCMCModel G C S) (query : Q) (vals : List ℚ)
    (_hn : 1 ≤ m.nParticles)
    (hvals : m.mCrit.map (fun c => cr.evaluate c query) = vals.map Except.ok) :
    m.evaluateCriteria cr query = Except.ok (vals.sum / (m.nParticles : ℚ)) := by
  unfold MCMCModel.evaluateCriteria
  rw [sumCriteria_all_ok cr query m.mCrit vals 0 hvals]
  simp

theorem evaluateCriteria_eq_sum_div_witness :
    1 ≤ ens3.nParticles
    ∧ ens3.mCrit.map (fun c => (rotatingOps 2).evaluate c (5 : ℚ))
        = ([5, 10, 30] : List ℚ).map Except.ok
    ∧ ens3.evaluateCriteria (rotatingOps 2) (5 : ℚ) = Except.ok (15 : ℚ) := by
  have hv : ens3.mCrit.map (fun c => (rotatingOps 2).evaluate c (5 : ℚ))
      = ([5, 10, 30] : List ℚ).map Except.ok := by
    simp [ens3, critAt, rotatingOps]
    norm_num
  have h := evaluateCriteria_eq_sum_div (rotatingOps 2) ens3 (5 : ℚ) [5, 10, 30]
    (by decide) hv
  refine ⟨by decide, hv, ?_⟩
  rw [h]
  simp [ens3]
  norm_num

/-- C2, as stated, fails. Three identical criteria whose value is the
`double` nearest to `0.1`: in the `double` arithmetic of the code the sum is
rounded to `0.30000000000000004` and the quotient by `3.0` to
`0.10000000000000002`, one unit in the last place above the single-member
value. -/
theorem evaluateCriteria_identical_fails_in_double :
    ensTenths.nParticles = 3
    ∧ ensTenths.mCrit = List.replicate 3 (critAt 0 tenthDouble)
    ∧ (rotatingOps 2).evaluate (critAt 0 tenthDouble) (1 : ℚ) = Except.ok tenthDouble
    ∧ roundDouble tenthDouble = tenthDouble
    ∧ ensTenths.evaluateCriteriaRounded roundDouble (rotatingOps 2) (1 : ℚ)
        = Except.ok (7205759403792795 / 72057594037927936)
    ∧ (7205759403792795 / 72057594037927936 : ℚ) ≠ tenthDouble := by
  have hv : (critAt 0 tenthDouble).gain * (1 : ℚ) = tenthDouble := by
    simp [critAt]
  have hsum : roundDouble
      (roundDouble (roundDouble (roundDouble (0 + tenthDouble) + tenthDouble)
        + tenthDouble) / roundDouble ((3 : ℕ) : ℚ))
      = 7205759403792795 / 72057594037927936 := by decide!
  refine ⟨rfl, rfl, ?_, by decide!, ?_, by decide!⟩
  · simp [rotatingOps, critAt]
  · simp only [MCMCModel.evaluateCriteriaRounded, sumCriteriaRounded, ensTenths,
      rotatingOps, hv]
    simp only [critAt, Bool.false_eq_true, if_false, hsum]

/-- C2, amended. With the arithmetic taken over exact rationals, on an
ensemble whose criterion collection holds `n ≥ 1` instances identical to `c`
(with `nParticles = n`), `evaluateCriteria(query)` returns exactly the value
`c.evaluate(query)` of a single member. -/
theorem evaluateCriteria_identical {G C S Q R L ε : Type} (cr : CriteriaOps C Q R L ε)
    (m : MCMCModel G C S) (query : Q) (n : Nat) (c : C) (v : ℚ)
    (hn : 1 ≤ n) (hN : m.nParticles = n) (hC : m.mCrit = List.replicate n c)
    (hv : cr.evaluate c query = Except.ok v) :
    m.evaluateCriteria cr query = Except.ok v := by
  have hvals : m.mCrit.map (fun c => cr.evaluate c query)
      = (List.replicate n v).map Except.ok := by
    rw [hC]
    simp [List.map_replicate, hv]
  unfold MCMCModel.evaluateCriteria
  rw [sumCriteria_all_ok cr query m.mCrit (List.replicate n v) 0 hvals, hN]
  have hne : (n : ℚ) ≠ 0 := by
    have : 0 < n := hn
    exact_mod_cast this.ne.symm
  simp [List.sum_replicate, hne]

theorem evaluateCriteria_identical_witness :
    1 ≤ 3 ∧ ensSame.nParticles = 3
    ∧ ensSame.mCrit = List.replicate 3 (critAt 1 (1/10))
    ∧ (rotatingOps 2).evaluate (critAt 1 (1/10)) (7 : ℚ) = Except.ok (7/10 : ℚ)
    ∧ ensSame.evaluateCriteria (rotatingOps 2) (7 : ℚ) = Except.ok (7/10 : ℚ) := by
  have hv : (rotatingOps 2).evaluate (critAt 1 (1/10)) (7 : ℚ)
      = Except.ok (7/10 : ℚ) := by
    simp [rotatingOps, critAt]
    norm_num
  exact ⟨by decide, rfl, rfl, hv,
    evaluateCriteria_identical (rotatingOps 2) ensSame (7 : ℚ) 3 (critAt 1 (1/10))
      (7/10) (by decide) rfl rfl hv⟩

/-! ## Fail-fast member loops -/

/-- C5. `fitSurrogateModel` and `updateSurrogateModel` run the member
operation over the surrogate collection in index order. If no member fails,
the call succeeds and every member has been operated on once. If member
`pre.length` is the lowest-index failing member, raising `e`, the call fails
with `e`; the members before it have been operated on once, the failing
member is left as its own operation left it and the members after it are
untouched. -/
theorem surrogate_loops_fail_fast {G C S Q D ε : Type} (gp : SurrogateOps G Q D ε)
    (m : MCMCModel G C S) :
    ((∀ g ∈ m.mGP, (gp.fitSurrogateModel g).1 = Except.ok ()) →
      m.fitSurrogateModel gp
        = (Except.ok (), { m with mGP := m.mGP.map (fun g => (gp.fitSurrogateModel g).2) }))
    ∧ (∀ (pre : List G) (g : G) (post : List G) (e : ε),
        m.mGP = pre ++ g :: post →
        (∀ p ∈ pre, (gp.fitSurrogateModel p).1 = Except.ok ()) →
        (gp.fitSurrogateModel g).1 = Except.error e →
        m.fitSurrogateModel gp
          = (Except.error e,
             { m with mGP := pre.map (fun p => (gp.fitSurrogateModel p).2)
                              ++ (gp.fitSurrogateModel g).2 :: post }))
    ∧ ((∀ g ∈ m.mGP, (gp.updateSurrogateModel g).1 = Except.ok ()) →
      m.updateSurrogateModel gp
        = (Except.ok (),
           { m with mGP := m.mGP.map (fun g => (gp.updateSurrogateModel g).2) }))
    ∧ (∀ (pre : List G) (g : G) (post : List G) (e : ε),
        m.mGP = pre ++ g :: post →
        (∀ p ∈ pre, (gp.updateSurrogateModel p).1 = Except.ok ()) →
        (gp.updateSurrogateModel g).1 = Except.error e →
        m.updateSurrogateModel gp
          = (Except.error e,
             { m with mGP := pre.map (fun p => (gp.updateSurrogateModel p).2)
                              ++ (gp.updateSurrogateModel g).2 :: post })) := by
  refine ⟨?_, ?_, ?_, ?_⟩
  · intro h
    simp [MCMCModel.fitSurrogateModel, forEachGP_all_ok gp.fitSurrogateModel m.mGP h]
  · intro pre g post e hsplit hpre hg
    simp [MCMCModel.fitSurrogateModel, hsplit,
      forEachGP_first_error gp.fitSurrogateModel pre g post e hpre hg]
  · intro h
    simp [MCMCModel.updateSurrogateModel,
      forEachGP_all_ok gp.updateSurrogateModel m.mGP h]
  · intro pre g post e hsplit hpre hg
    simp [MCMCModel.updateSurrogateModel, hsplit,
      forEachGP_first_error gp.updateSurrogateModel pre g post e hpre hg]

theorem surrogate_loops_fail_fast_witness :
    ens3.fitSurrogateModel countingOps
        = (Except.ok (),
           { ens3 with mGP := [{ gpGood with fits := 1 }, { gpGood with fits := 1 },
                               { gpGood with fits := 1 }] })
    ∧ ensFailMid.updateSurrogateModel countingOps
        = (Except.error "singular",
           { ensFailMid with mGP := [{ gpGood with updates := 1 }, gpBad, gpGood] }) :=
  ⟨(surrogate_loops_fail_fast countingOps ens3).1
      (by simp [ens3, gpGood, countingOps]),
   (surrogate_loops_fail_fast countingOps ensFailMid).2.2.2 [gpGood] gpBad [gpGood]
      "singular" rfl (by simp [gpGood, countingOps]) rfl⟩

/-! ## The error that reaches the caller -/

/-- C6, as stated, fails. Were the propagated error to identify the failing
member, some decoding `idx` of the error would return the index of the
lowest-index failing member for every ensemble. The ensembles `ensFail0` and
`ensFail1` fail at members 0 and 1 and propagate the same error. -/
theorem propagated_error_does_not_identify_member :
    ¬ ∃ idx : String → Nat,
        ∀ (m : MCMCModel CountingGP RotatingCriteria Unit)
          (pre : List CountingGP) (g : CountingGP) (post : List CountingGP) (e : String),
          m.mGP = pre ++ g :: post →
          (∀ p ∈ pre, (countingOps.fitSurrogateModel p).1 = Except.ok ()) →
          (countingOps.fitSurrogateModel g).1 = Except.error e →
          ∃ e1, (m.fitSurrogateModel countingOps).1 = Except.error e1
            ∧ idx e1 = pre.length := by
  rintro ⟨idx, h⟩
  obtain ⟨e0, h0, hi0⟩ := h ensFail0 [] gpBad [gpGood] "singular" rfl (by simp) rfl
  obtain ⟨e1, h1, hi1⟩ := h ensFail1 [gpGood] gpBad [] "singular" rfl
    (by simp [gpGood, countingOps]) rfl
  have r0 : (ensFail0.fitSurrogateModel countingOps).1 = Except.error "singular" := rfl
  have r1 : (ensFail1.fitSurrogateModel countingOps).1 = Except.error "singular" := rfl
  rw [r0] at h0
  rw [r1] at h1
  injection h0 with h0
  injection h1 with h1
  subst h0
  subst h1
  simp at hi0 hi1
  omega

/-- C6, amended. In `fitSurrogateModel`, `updateSurrogateModel` and
`evaluateCriteria` the caller receives the error `e` exactly when the
lowest-index failing member raised `e`: the member's error is passed on
unchanged, nothing is aggregated and no member index is attached. -/
theorem member_error_passed_unchanged {G C S Q D R L ε : Type}
    (gp : SurrogateOps G Q D ε) (cr : CriteriaOps C Q R L ε)
    (m : MCMCModel G C S) (query : Q) (e : ε) :
    ((m.fitSurrogateModel gp).1 = Except.error e ↔
      ∃ pre g post, m.mGP = pre ++ g :: post
        ∧ (∀ p ∈ pre, (gp.fitSurrogateModel p).1 = Except.ok ())
        ∧ (gp.fitSurrogateModel g).1 = Except.error e)
    ∧ ((m.updateSurrogateModel gp).1 = Except.error e ↔
      ∃ pre g post, m.mGP = pre ++ g :: post
        ∧ (∀ p ∈ pre, (gp.updateSurrogateModel p).1 = Except.ok ())
        ∧ (gp.updateSurrogateModel g).1 = Except.error e)
    ∧ (m.evaluateCriteria cr query = Except.error e ↔
      ∃ pre c post, m.mCrit = pre ++ c :: post
        ∧ (∀ p ∈ pre, ∃ v, cr.evaluate p query = Except.ok v)
        ∧ cr.evaluate c query = Except.error e) := by
  refine ⟨⟨?_, ?_⟩, ⟨?_, ?_⟩, ⟨?_, ?_⟩⟩
  · intro h
    exact forEachGP_error_inv gp.fitSurrogateModel m.mGP e h
  · rintro ⟨pre, g, post, hsplit, hpre, hg⟩
    simp [MCMCModel.fitSurrogateModel, hsplit,
      forEachGP_first_error gp.fitSurrogateModel pre g post e hpre hg]
  · intro h
    exact forEachGP_error_inv gp.updateSurrogateModel m.mGP e h
  · rintro ⟨pre, g, post, hsplit, hpre, hg⟩
    simp [MCMCModel.updateSurrogateModel, hsplit,
      forEachGP_first_error gp.updateSurrogateModel pre g post e hpre hg]
  · intro h
    unfold MCMCModel.evaluateCriteria at h
    cases hs : sumCriteria cr query m.mCrit 0 with
    | error e1 =>
      rw [hs] at h
      simp only at h
      injection h with h
      subst h
      exact sumCriteria_error_inv cr query m.mCrit 0 e1 hs
    | ok v =>
      rw [hs] at h
      simp at h
  · rintro ⟨pre, c, post, hsplit, hpre, hc⟩
    unfold MCMCModel.evaluateCriteria
    rw [hsplit, sumCriteria_first_error cr query pre c post e 0 hpre hc]

theorem member_error_passed_unchanged_witness :
    (ensFail1.fitSurrogateModel countingOps).1 = Except.error "singular"
    ∧ ensFail1.evaluateCriteria (rotatingOps 2) (3 : ℚ) = Except.error "criterion" :=
  ⟨(member_error_passed_unchanged countingOps (rotatingOps 2) ensFail1 (3 : ℚ)
      "singular").1.mpr
      ⟨[gpGood], gpBad, [], rfl, by simp [gpGood, countingOps], rfl⟩,
   (member_error_passed_unchanged countingOps (rotatingOps 2) ensFail1 (3 : ℚ)
      "criterion").2.2.mpr
      ⟨[critAt 0 1], critBroken, [], rfl, by simp [critAt, rotatingOps], rfl⟩⟩

/-! ## Criterion rotation -/

/-- C3. Let the criteria cycle through `k ≥ 1` candidates and let the
ensemble have `nParticles ≥ 1` members, just reset by `setFirstCriterium`.
Successive calls of `setNextCriterium` all return, and the call number
`j + 1` returns `true` exactly when `k` divides `j + 1`: `false` on the first
`k - 1` calls, `true` on the `k`-th, cyclically. -/
theorem setNextCriterium_true_iff_multiple {G C S Q R L ε : Type}
    (cr : CriteriaOps C Q R L ε) (k : Nat) (pos : C → Nat)
    (hc : CyclesThrough cr k pos) (_hk : 1 ≤ k)
    (m : MCMCModel G C S) (hw : m.WellFormed) (hn : 1 ≤ m.nParticles)
    (rs : List R) :
    ∃ m1, (m.setFirstCriterium cr).setNextCriteriumSeq cr rs
      = some ((List.range rs.length).map (fun j => decide (k ∣ j + 1)), m1) := by
  obtain ⟨c0, rest, hm⟩ := mCrit_cons_of_wellFormed m hw hn
  have hne : (m.setFirstCriterium cr).mCrit ≠ [] := by
    simp [MCMCModel.setFirstCriterium, hm]
  obtain ⟨m1, h1⟩ := setNextCriteriumSeq_allAt cr k pos hc rs
    (m.setFirstCriterium cr) 0 hne (setFirstCriterium_allAt cr k pos hc m)
  refine ⟨m1, ?_⟩
  rw [h1]
  congr 2
  apply List.map_congr_left
  intro j _
  simp only [Nat.zero_add, Nat.dvd_iff_mod_eq_zero]

theorem setNextCriterium_true_iff_multiple_witness :
    ens3.WellFormed ∧ 1 ≤ ens3.nParticles
    ∧ ∃ m1, (ens3.setFirstCriterium (rotatingOps 3)).setNextCriteriumSeq (rotatingOps 3)
        ([1, 2, 3, 4, 5, 6, 7] : List ℚ)
      = some ([false, false, true, false, false, true, false], m1) := by
  have hw : ens3.WellFormed := ⟨rfl, rfl⟩
  obtain ⟨m1, h⟩ := setNextCriterium_true_iff_multiple (rotatingOps 3) 3 (rotatingPos 3)
    (rotatingOps_cycles 3) (by decide) ens3 hw (by decide) ([1, 2, 3, 4, 5, 6, 7] : List ℚ)
  refine ⟨hw, by decide, m1, ?_⟩
  rw [h]
  rfl

/-- C4. On an ensemble with `nParticles ≥ 1`, `setNextCriterium(prevResult)`
applies `pushResult(prevResult)` to member 0 only and then `rotateCriteria`
once to every member: member 0 becomes the rotation of the pushed member 0
and every member of index `> 0` becomes its own rotation, without any push.
The value returned is the one of the last member's rotation, and `mGP`,
`nParticles` and the sampler are unchanged. -/
theorem setNextCriterium_pushes_canonical_only {G C S Q R L ε : Type}
    (cr : CriteriaOps C Q R L ε) (m : MCMCModel G C S) (prevResult : R)
    (hw : m.WellFormed) (hn : 1 ≤ m.nParticles) :
    ∃ c0 rest, m.mCrit = c0 :: rest
      ∧ m.setNextCriterium cr prevResult
        = some ((cr.rotateCriteria
                  ((cr.pushResult c0 prevResult :: rest).getLast
                    (List.cons_ne_nil _ _))).1,
                { nParticles := m.nParticles, mGP := m.mGP,
                  mCrit := (cr.rotateCriteria (cr.pushResult c0 prevResult)).2
                            :: rest.map (fun c => (cr.rotateCriteria c).2),
                  kSampler := m.kSampler }) := by
  obtain ⟨c0, rest, hm⟩ := mCrit_cons_of_wellFormed m hw hn
  exact ⟨c0, rest, hm, setNextCriterium_cons cr m prevResult c0 rest hm⟩

theorem setNextCriterium_pushes_canonical_only_witness :
    ens3.WellFormed ∧ 1 ≤ ens3.nParticles
    ∧ ens3.setNextCriterium (rotatingOps 2) (9 : ℚ)
      = some (false,
          { nParticles := 3, mGP := [gpGood, gpGood, gpGood],
            mCrit := [{ critAt 1 1 with mResults := [9] }, critAt 1 2, critAt 1 6],
            kSampler := () }) := by
  have hw : ens3.WellFormed := ⟨rfl, rfl⟩
  obtain ⟨c0, rest, hm, h⟩ := setNextCriterium_pushes_canonical_only (rotatingOps 2)
    ens3 (9 : ℚ) hw (by decide)
  refine ⟨hw, by decide, ?_⟩
  simp only [ens3, List.cons.injEq] at hm
  obtain ⟨rfl, rfl⟩ := hm
  rw [h]
  rfl

/-- C7. On an ensemble with `nParticles ≥ 1`, `criteriaRequiresComparison()`
returns the `requireComparison` flag of member 0 of the criterion collection
and leaves the ensemble as it was; any ensemble with the same member 0, of
whatever size and with whatever other members, yields the same flag. -/
theorem criteriaRequiresComparison_canonical {G C S Q R L ε : Type}
    (cr : CriteriaOps C Q R L ε) (m : MCMCModel G C S)
    (hw : m.WellFormed) (hn : 1 ≤ m.nParticles) :
    ∃ c0 rest, m.mCrit = c0 :: rest
      ∧ m.criteriaRequiresComparison cr = some (cr.requireComparison c0, m)
      ∧ ∀ (m2 : MCMCModel G C S) (rest2 : List C), m2.mCrit = c0 :: rest2 →
          m2.criteriaRequiresComparison cr = some (cr.requireComparison c0, m2) := by
  obtain ⟨c0, rest, hm⟩ := mCrit_cons_of_wellFormed m hw hn
  refine ⟨c0, rest, hm, ?_, ?_⟩
  · simp [MCMCModel.criteriaRequiresComparison, hm]
  · intro m2 rest2 hm2
    simp [MCMCModel.criteriaRequiresComparison, hm2]

theorem criteriaRequiresComparison_canonical_witness :
    ensFail1.WellFormed ∧ 1 ≤ ensFail1.nParticles
    ∧ ensFail1.criteriaRequiresComparison (rotatingOps 2) = some (true, ensFail1)
    ∧ ens3.criteriaRequiresComparison (rotatingOps 2) = some (true, ens3) := by
  have hw : ensFail1.WellFormed := ⟨rfl, rfl⟩
  obtain ⟨c0, rest, hm, h, hall⟩ := criteriaRequiresComparison_canonical (rotatingOps 2)
    ensFail1 hw (by decide)
  simp only [ensFail1, List.cons.injEq] at hm
  obtain ⟨rfl, rfl⟩ := hm
  exact ⟨hw, by decide, h, hall ens3 _ rfl⟩

/-- C10. Let the criteria cycle through `k` candidates (the same `k` for all
members) on an ensemble with `nParticles ≥ 1`. After `setFirstCriterium()`
every member stands at the first candidate; a call of `setNextCriterium` on a
synchronized ensemble returns and leaves it synchronized; hence every
sequence of the two calls from a synchronized ensemble returns a synchronized
ensemble. None of these calls changes `nParticles` or the lengths of the
member collections. -/
theorem criteria_stay_synchronized {G C S Q R L ε : Type}
    (cr : CriteriaOps C Q R L ε) (k : Nat) (pos : C → Nat)
    (hc : CyclesThrough cr k pos)
    (m : MCMCModel G C S) (hw : m.WellFormed) (hn : 1 ≤ m.nParticles) :
    ((∀ c ∈ (m.setFirstCriterium cr).mCrit, pos c = 0)
      ∧ (m.setFirstCriterium cr).WellFormed
      ∧ (m.setFirstCriterium cr).nParticles = m.nParticles)
    ∧ (∀ prevResult : R, m.Synchronized pos →
        ∃ rotated m1, m.setNextCriterium cr prevResult = some (rotated, m1)
          ∧ m1.Synchronized pos ∧ m1.WellFormed ∧ m1.nParticles = m.nParticles)
    ∧ (∀ calls : List (CriteriumCall R), m.Synchronized pos →
        ∃ m1, m.runCalls cr calls = some m1
          ∧ m1.Synchronized pos ∧ m1.WellFormed ∧ m1.nParticles = m.nParticles) := by
  obtain ⟨c0, rest, hm⟩ := mCrit_cons_of_wellFormed m hw hn
  have hne : m.mCrit ≠ [] := by simp [hm]
  refine ⟨⟨setFirstCriterium_allAt cr k pos hc m, ?_, rfl⟩, ?_, ?_⟩
  · exact ⟨hw.1, by simpa [MCMCModel.setFirstCriterium] using hw.2⟩
  · intro prevResult hs
    have hp : ∀ c ∈ m.mCrit, pos c = pos c0 :=
      fun c hcm => hs c hcm c0 (by simp [hm])
    obtain ⟨m1, h1, hlen1, hp1, hgp1, hnp1, -⟩ :=
      setNextCriterium_allAt cr k pos hc m prevResult (pos c0) hne hp
    refine ⟨_, m1, h1, synchronized_of_allAt pos m1 _ hp1, ⟨?_, ?_⟩, hnp1⟩
    · rw [hgp1, hnp1]
      exact hw.1
    · rw [hlen1, hnp1]
      exact hw.2
  · intro calls hs
    obtain ⟨m1, h1, hsync, hlen, hgp, hnp⟩ := runCalls_synchronized cr k pos hc calls m hne hs
    refine ⟨m1, h1, hsync, ⟨?_, ?_⟩, hnp⟩
    · rw [hgp, hnp]
      exact hw.1
    · rw [hlen, hnp]
      exact hw.2

theorem criteria_stay_synchronized_witness :
    ens3.WellFormed ∧ 1 ≤ ens3.nParticles ∧ ens3.Synchronized (rotatingPos 3)
    ∧ ∃ m1, ens3.runCalls (rotatingOps 3)
          [CriteriumCall.next (1 : ℚ), CriteriumCall.next 2, CriteriumCall.first,
           CriteriumCall.next 3] = some m1
        ∧ m1.Synchronized (rotatingPos 3) ∧ m1.WellFormed
        ∧ m1.nParticles = ens3.nParticles := by
  have hw : ens3.WellFormed := ⟨rfl, rfl⟩
  have hs : ens3.Synchronized (rotatingPos 3) := by
    apply synchronized_of_allAt (rotatingPos 3) ens3 0
    intro c hcm
    simp only [ens3, List.mem_cons, List.mem_singleton, List.not_mem_nil, or_false] at hcm
    rcases hcm with rfl | rfl | rfl <;> rfl
  exact ⟨hw, by decide, hs,
    (criteria_stay_synchronized (rotatingOps 3) 3 (rotatingPos 3) (rotatingOps_cycles 3)
      ens3 hw (by decide)).2.2 _ hs⟩

/-! ## Sampler accessors -/

/-- C8, as stated, fails: the subscript of `getParticle` is not checked.
With three stored particles and an empty vector lying behind them in the
storage, `getParticle(3)` returns that empty vector; no `IndexError` arises
although `3 ≥ nParticles`. -/
theorem getParticle_past_end_returns_value :
    sampler3.mParticles.length = sampler3.nSamples
    ∧ sampler3.nSamples ≤ 3
    ∧ sampler3.getParticle [[]] 3 = some [] :=
  ⟨rfl, by decide, rfl⟩

/-- C8, amended. For a sampler whose stored particle set has length
`nSamples`, `getParticle(i)` returns the `i`-th stored particle for every
`i < nSamples`, whatever lies behind the particles. For `i ≥ nSamples` no
check is made: the call reads the storage behind the last particle, at offset
`i - nSamples`, so that its result is not determined by the stored
particles. -/
theorem getParticle_unchecked {Obj Rng : Type} (s : MCMCSampler Obj Rng)
    (hlen : s.mParticles.length = s.nSamples) (behind : vecOfvec) :
    (∀ (i : Nat) (h : i < s.nSamples),
        s.getParticle behind i = some (s.mParticles.get ⟨i, by omega⟩))
    ∧ (∀ i : Nat, s.nSamples ≤ i →
        s.getParticle behind i = behind[i - s.nSamples]?) := by
  refine ⟨?_, ?_⟩
  · intro i h
    have hi : i < s.mParticles.length := by omega
    simp [MCMCSampler.getParticle, List.getElem?_append_left hi,
      List.getElem?_eq_getElem hi]
  · intro i h
    have hi : s.mParticles.length ≤ i := by omega
    simp [MCMCSampler.getParticle, List.getElem?_append_right hi, hlen]

theorem getParticle_unchecked_witness :
    sampler3.mParticles.length = sampler3.nSamples
    ∧ sampler3.getParticle [[7], []] 1 = some [-1/4]
    ∧ sampler3.getParticle [[7], []] 4 = some []
    ∧ sampler3.getParticle [[7], []] 5 = none :=
  ⟨rfl, (getParticle_unchecked sampler3 rfl [[7], []]).1 1 (by decide),
    (getParticle_unchecked sampler3 rfl [[7], []]).2 4 (by decide),
    (getParticle_unchecked sampler3 rfl [[7], []]).2 5 (by decide)⟩

/-- C9, as stated, fails: `setNParticles(0)` is not rejected, it stores `0`
as the number of particles to retain. -/
theorem setNParticles_zero_is_stored :
    (sampler3.setNParticles 0).nSamples = 0
    ∧ sampler3.setNParticles 0 = { sampler3 with nSamples := 0 } :=
  ⟨rfl, rfl⟩

/-- C9, amended. `setNParticles(n)` accepts every `n`, zero included: it
stores `n` as the number of particles to retain and leaves every other data
member of the sampler as it was. -/
theorem setNParticles_stores_any {Obj Rng : Type} (s : MCMCSampler Obj Rng) (n : Nat) :
    (s.setNParticles n).nSamples = n
    ∧ (s.setNParticles n).obj = s.obj
    ∧ (s.setNParticles n).mAlg = s.mAlg
    ∧ (s.setNParticles n).mDims = s.mDims
    ∧ (s.setNParticles n).nBurnOut = s.nBurnOut
    ∧ (s.setNParticles n).mStepOut = s.mStepOut
    ∧ (s.setNParticles n).mSigma = s.mSigma
    ∧ (s.setNParticles n).mParticles = s.mParticles
    ∧ (s.setNParticles n).mtRandom = s.mtRandom :=
  ⟨rfl, rfl, rfl, rfl, rfl, rfl, rfl, rfl, rfl⟩

end bayesopt
